import Mathlib

/-
Verification development for the Vendure distributed caching subsystem.

The repository excerpt documents the caching subsystem of Vendure: the
CacheService with TTL and tag-based invalidation, the createCache
memoizing wrapper, the RequestContextCacheService, the SelfRefreshingCache
and the DefaultCachePlugin. The service implementations themselves are not
part of the excerpt (only the developer guide describing them is), so each
operation below is modelled from the specification, and the documented
contracts are proved against these models.
-/

namespace VendureCache

/-- Modelled from the spec: a cache entry as held by the backing store.
Section 3 of the specification gives the data model as key, serialized
value, optional absolute expiry timestamp and a set of tags. Times are
modelled as natural-number milliseconds. -/
structure CacheEntry (V : Type) where
  value : V
  expiresAt : Option Nat
  tags : List String
deriving DecidableEq

/-- Modelled from the spec: the state of one logical cache namespace, a
mapping from string keys to entries. The concrete representation (database
table, key-value server, in-memory map) is an implementation detail of the
chosen cache strategy. -/
def Store (V : Type) := String → Option (CacheEntry V)

/-- The empty store, the state before any entry has been written. -/
def emptyStore (V : Type) : Store V := fun _ => none

namespace CacheService

/-- Modelled from the spec: CacheService.set writes an entry under the
given key, computing an absolute expiry from the optional ttl in
milliseconds and attaching the given tags; a second set with the same key
overwrites the previous entry. -/
def set {V : Type} (s : Store V) (k : String) (v : V) (ttlMs : Option Nat)
    (tags : List String) (now : Nat) : Store V :=
  fun q =>
    if q = k then some { value := v, expiresAt := ttlMs.map (fun t => now + t), tags := tags }
    else s q

/-- Modelled from the spec: CacheService.get with passive expiry checking:
an entry whose expiry time has been reached is treated as absent, so no
caller ever observes a value past its TTL. -/
def get {V : Type} (s : Store V) (k : String) (now : Nat) : Option V :=
  match s k with
  | none => none
  | some e =>
    match e.expiresAt with
    | none => some e.value
    | some t => if now < t then some e.value else none

/-- Modelled from the spec: CacheService.delete removes the entry under the
given key. -/
def delete {V : Type} (s : Store V) (k : String) : Store V :=
  fun q => if q = k then none else s q

/-- Modelled from the spec: CacheService.invalidateTags removes every entry
carrying at least one of the given tags, regardless of remaining TTL;
entries carrying none of the tags are untouched. -/
def invalidateTags {V : Type} (s : Store V) (ts : List String) : Store V :=
  fun q =>
    match s q with
    | none => none
    | some e => if e.tags.any (fun tg => ts.contains tg) then none else some e

end CacheService

/-- Claim C1: for every key k and value v, set(k, v) followed immediately
by get(k) from the same process, with no intervening delete, tag
invalidation or concurrent writer, returns v; this holds both for the
untagged no-TTL form of set and for a set with a positive ttl. -/
theorem set_then_get_returns_value {V : Type} (s : Store V) (k : String) (v : V)
    (tags : List String) (now t : Nat) (ht : 0 < t) :
    CacheService.get (CacheService.set s k v none tags now) k now = some v ∧
    CacheService.get (CacheService.set s k v (some t) tags now) k now = some v := by
  constructor
  · simp [CacheService.get, CacheService.set]
  · simp [CacheService.get, CacheService.set, Option.map, Nat.lt_add_of_pos_right ht]

/-- Witness for C1 at a concrete key, value and ttl. -/
theorem set_then_get_returns_value_witness :
    CacheService.get (CacheService.set (emptyStore Nat) "a" 7 none [] 0) "a" 0 = some 7 ∧
    CacheService.get (CacheService.set (emptyStore Nat) "a" 7 (some 5) [] 0) "a" 0 = some 7 :=
  set_then_get_returns_value (emptyStore Nat) "a" 7 [] 0 5 (by decide)

/-- Claim C2: after set(k, v) with ttl t, once at least t milliseconds have
passed, get(k) returns absent; and more generally no get ever returns a
value whose TTL has elapsed: any store entry whose expiry timestamp has
been reached reads as absent. -/
theorem ttl_elapsed_reads_absent {V : Type} (s s2 : Store V) (k : String) (v : V)
    (tags : List String) (t now now2 : Nat) (h : now + t ≤ now2)
    (e : CacheEntry V) (ts : Nat) (he : s2 k = some e)
    (hts : e.expiresAt = some ts) (helapsed : ts ≤ now2) :
    CacheService.get (CacheService.set s k v (some t) tags now) k now2 = none ∧
    CacheService.get s2 k now2 = none := by
  constructor
  · simp [CacheService.get, CacheService.set, Option.map, Nat.not_lt.mpr h]
  · simp [CacheService.get, he, hts, Nat.not_lt.mpr helapsed]

/-- Witness for C2: a concrete entry written with ttl 5 at time 0 reads as
absent at time 5, and a concrete store whose entry expired at time 3 reads
as absent at time 5. -/
theorem ttl_elapsed_reads_absent_witness :
    CacheService.get (CacheService.set (emptyStore Nat) "a" 7 (some 5) [] 0) "a" 5 = none ∧
    CacheService.get (CacheService.set (emptyStore Nat) "a" 9 (some 3) [] 0) "a" 5 = none :=
  ttl_elapsed_reads_absent (emptyStore Nat)
    (CacheService.set (emptyStore Nat) "a" 9 (some 3) [] 0) "a" 7 [] 5 0 5 (by decide)
    { value := 9, expiresAt := some 3, tags := [] } 3 (by rfl) (by rfl) (by decide)

/-- Claim C4: after invalidateTags({T}), every key whose entry carries tag
T reads as absent regardless of its remaining TTL, while an entry carrying
other tags is unchanged in value, expiry and tags. -/
theorem invalidateTags_removes_tagged_only {V : Type} (s : Store V)
    (k1 k2 k3 T : String) (e1 e2 e3 : CacheEntry V)
    (hne : k1 ≠ k2)
    (h1 : s k1 = some e1) (hT1 : T ∈ e1.tags)
    (h2 : s k2 = some e2) (hT2 : T ∈ e2.tags)
    (h3 : s k3 = some e3) (hT3 : T ∉ e3.tags) (now : Nat) :
    CacheService.get (CacheService.invalidateTags s [T]) k1 now = none ∧
    CacheService.get (CacheService.invalidateTags s [T]) k2 now = none ∧
    CacheService.invalidateTags s [T] k3 = some e3 := by
  refine ⟨?_, ?_, ?_⟩
  · simp [CacheService.get, CacheService.invalidateTags, h1, hT1]
  · simp [CacheService.get, CacheService.invalidateTags, h2, hT2]
  · simp [CacheService.invalidateTags, h3, hT3]

/-- Witness for C4, realising the documented scenario: set A with ttl 1000
and tag g, set B untimed with tag g, set C with a different tag, then
invalidate tag g; A and B read as absent while C is untouched. -/
theorem invalidateTags_removes_tagged_only_witness :
    CacheService.get (CacheService.invalidateTags
      (CacheService.set (CacheService.set (CacheService.set (emptyStore Nat)
        "A" 1 (some 1000) ["g"] 0) "B" 2 none ["g"] 0) "C" 3 none ["h"] 0) ["g"])
      "A" 0 = none ∧
    CacheService.get (CacheService.invalidateTags
      (CacheService.set (CacheService.set (CacheService.set (emptyStore Nat)
        "A" 1 (some 1000) ["g"] 0) "B" 2 none ["g"] 0) "C" 3 none ["h"] 0) ["g"])
      "B" 0 = none ∧
    CacheService.invalidateTags
      (CacheService.set (CacheService.set (CacheService.set (emptyStore Nat)
        "A" 1 (some 1000) ["g"] 0) "B" 2 none ["g"] 0) "C" 3 none ["h"] 0) ["g"]
      "C" = some { value := 3, expiresAt := none, tags := ["h"] } :=
  invalidateTags_removes_tagged_only
    (CacheService.set (CacheService.set (CacheService.set (emptyStore Nat)
      "A" 1 (some 1000) ["g"] 0) "B" 2 none ["g"] 0) "C" 3 none ["h"] 0)
    "A" "B" "C" "g"
    { value := 1, expiresAt := some 1000, tags := ["g"] }
    { value := 2, expiresAt := none, tags := ["g"] }
    { value := 3, expiresAt := none, tags := ["h"] }
    (by decide) (by rfl) (by decide) (by rfl) (by decide) (by rfl) (by decide) 0

/-- Modelled from the spec: the configuration passed to
CacheService.createCache — a key derivation function plus the ttl and tags
applied to every write the wrapper performs. -/
structure CacheConfig (I V : Type) where
  getKey : I → String
  ttl : Option Nat
  tags : List String

/-- Modelled from the spec: the outcome of one wrapper get: the value
returned to the caller, the store afterwards, and whether the compute
function was invoked. -/
structure WrapperResult (V : Type) where
  value : V
  store : Store V
  computed : Bool

namespace Cache

/-- Modelled from the spec: Cache.get on the wrapper returned by
createCache — look up the key derived from the input; on a hit return the
cached value without computing; on a miss or expired entry run the compute
function, write its result back through CacheService.set with the
configured ttl and tags, and return it. -/
def get {I V : Type} (cfg : CacheConfig I V) (s : Store V) (input : I)
    (compute : V) (now : Nat) : WrapperResult V :=
  match CacheService.get s (cfg.getKey input) now with
  | some v => { value := v, store := s, computed := false }
  | none =>
    { value := compute
      store := CacheService.set s (cfg.getKey input) compute cfg.ttl cfg.tags now
      computed := true }

end Cache

/-- Claim C3: the wrapper invokes the compute function exactly when the
entry for getKey(input) is absent or expired; on a miss it writes the
result back through set with the configured ttl and tags before returning
it; and a later get with the same input, before the written entry expires,
does not compute again and returns a value equal to the computed result,
leaving the store unchanged. -/
theorem createCache_get_memoizes {I V : Type} (cfg : CacheConfig I V)
    (s : Store V) (input : I) (c c2 : V) (now now2 : Nat)
    (hmiss : CacheService.get s (cfg.getKey input) now = none)
    (hfresh : ∀ t, cfg.ttl = some t → now2 < now + t) :
    (Cache.get cfg s input c now).computed = true ∧
    (Cache.get cfg s input c now).value = c ∧
    (Cache.get cfg s input c now).store (cfg.getKey input) =
      some { value := c, expiresAt := cfg.ttl.map (fun t => now + t), tags := cfg.tags } ∧
    (∀ v, CacheService.get s (cfg.getKey input) now = some v →
      (Cache.get cfg s input c now).computed = false ∧
      (Cache.get cfg s input c now).value = v) ∧
    (Cache.get cfg (Cache.get cfg s input c now).store input c2 now2).computed = false ∧
    (Cache.get cfg (Cache.get cfg s input c now).store input c2 now2).value = c ∧
    (Cache.get cfg (Cache.get cfg s input c now).store input c2 now2).store =
      (Cache.get cfg s input c now).store := by
  have hstep : Cache.get cfg s input c now =
      { value := c
        store := CacheService.set s (cfg.getKey input) c cfg.ttl cfg.tags now
        computed := true } := by
    simp [Cache.get, hmiss]
  have hhit : CacheService.get
      (CacheService.set s (cfg.getKey input) c cfg.ttl cfg.tags now)
      (cfg.getKey input) now2 = some c := by
    cases httl : cfg.ttl with
    | none => simp [CacheService.get, CacheService.set]
    | some t =>
      have := hfresh t httl
      simp [CacheService.get, CacheService.set, Option.map, this]
  refine ⟨by simp [hstep], by simp [hstep], ?_, ?_, ?_, ?_, ?_⟩
  · simp [hstep, CacheService.set]
  · intro v hv
    rw [hv] at hmiss
    exact absurd hmiss (by simp)
  · rw [hstep]; simp [Cache.get, hhit]
  · rw [hstep]; simp [Cache.get, hhit]
  · rw [hstep]; simp [Cache.get, hhit]

/-- Witness for C3 at a concrete configuration with ttl 100 and one tag,
computing the value 42 at time 0 and re-reading at time 50. -/
theorem createCache_get_memoizes_witness :
    (Cache.get { getKey := fun _ : Nat => "k", ttl := some 100, tags := ["t"] }
      (emptyStore Nat) 0 42 0).computed = true ∧
    (Cache.get { getKey := fun _ : Nat => "k", ttl := some 100, tags := ["t"] }
      (emptyStore Nat) 0 42 0).value = 42 ∧
    (Cache.get { getKey := fun _ : Nat => "k", ttl := some 100, tags := ["t"] }
      (emptyStore Nat) 0 42 0).store "k" =
      some { value := 42, expiresAt := some 100, tags := ["t"] } ∧
    (∀ v, CacheService.get (emptyStore Nat) "k" 0 = some v →
      (Cache.get { getKey := fun _ : Nat => "k", ttl := some 100, tags := ["t"] }
        (emptyStore Nat) 0 42 0).computed = false ∧
      (Cache.get { getKey := fun _ : Nat => "k", ttl := some 100, tags := ["t"] }
        (emptyStore Nat) 0 42 0).value = v) ∧
    (Cache.get { getKey := fun _ : Nat => "k", ttl := some 100, tags := ["t"] }
      (Cache.get { getKey := fun _ : Nat => "k", ttl := some 100, tags := ["t"] }
        (emptyStore Nat) 0 42 0).store 0 99 50).computed = false ∧
    (Cache.get { getKey := fun _ : Nat => "k", ttl := some 100, tags := ["t"] }
      (Cache.get { getKey := fun _ : Nat => "k", ttl := some 100, tags := ["t"] }
        (emptyStore Nat) 0 42 0).store 0 99 50).value = 42 ∧
    (Cache.get { getKey := fun _ : Nat => "k", ttl := some 100, tags := ["t"] }
      (Cache.get { getKey := fun _ : Nat => "k", ttl := some 100, tags := ["t"] }
        (emptyStore Nat) 0 42 0).store 0 99 50).store =
      (Cache.get { getKey := fun _ : Nat => "k", ttl := some 100, tags := ["t"] }
        (emptyStore Nat) 0 42 0).store :=
  createCache_get_memoizes
    { getKey := fun _ : Nat => "k", ttl := some 100, tags := ["t"] }
    (emptyStore Nat) 0 42 99 0 50 (by rfl)
    (by intro t ht; cases ht; decide)

/-- Modelled from the spec: the backend-level faults a cache strategy call
can produce, the backing store being unreachable or the call timing out. -/
inductive BackendFault where
  | unreachable
  | timedOut
deriving DecidableEq

/-- Modelled from the spec: programmer-error faults, which unlike backend
faults must propagate immediately and loudly. -/
inductive ProgrammerFault where
  | badSerialization
  | badConfiguration
deriving DecidableEq

/-- Modelled from the spec: the raw outcome of one call against the backing
store, either a result or a backend-level fault. -/
def BackendResult (α : Type) := Except BackendFault α

/-- Modelled from the spec: CacheService.get absorbs backend faults at the
strategy boundary, degrading to absent instead of raising. -/
def safeGet {V : Type} (r : BackendResult (Option V)) : Option V :=
  match r with
  | Except.error _ => none
  | Except.ok v => v

/-- Modelled from the spec: the outcome toward the caller of set, delete or
invalidateTags: a non-serializable value is a programmer error surfaced
loudly at the call site, while a backend fault is logged and absorbed so
the call returns normally. -/
def safeWrite (serializable : Bool) (r : BackendResult Unit) :
    Except ProgrammerFault Unit :=
  if serializable then
    match r with
    | Except.error _ => Except.ok ()
    | Except.ok _ => Except.ok ()
  else Except.error ProgrammerFault.badSerialization

/-- Claim C5: when the backing store is unreachable or times out, get
returns absent rather than raising; set, delete and invalidateTags return
normally on any backend fault; no backend fault ever reaches the caller as
an error; and only the programmer-error fault of a non-serializable value
propagates. -/
theorem backend_faults_absorbed {V : Type} (f : BackendFault)
    (r : BackendResult Unit) :
    safeGet (V := V) (Except.error f) = none ∧
    safeWrite true (Except.error f) = Except.ok () ∧
    (∀ e : ProgrammerFault, safeWrite true r ≠ Except.error e) ∧
    safeWrite false r = Except.error ProgrammerFault.badSerialization := by
  refine ⟨rfl, rfl, ?_, rfl⟩
  intro e
  cases r with
  | error _ => simp [safeWrite]
  | ok _ => simp [safeWrite]

/-- Modelled from the spec: the state of one SelfRefreshingCache instance —
the last successfully refreshed value if any, the time of the last
successful refresh, and the configured ttl in milliseconds. -/
structure SelfRefreshingCache (V : Type) where
  value : Option V
  lastRefreshedAt : Option Nat
  ttlMs : Nat
deriving DecidableEq

/-- Modelled from the spec: the distinct failure a SelfRefreshingCache
propagates when it has never successfully refreshed and the current
refresh fails. -/
inductive SRFailure where
  | notAvailable
deriving DecidableEq

/-- Modelled from the spec: a SelfRefreshingCache entry is stale when the
configured ttl has elapsed since the last successful refresh; a cache that
has never refreshed is treated as stale. -/
def isStale {V : Type} (c : SelfRefreshingCache V) (now : Nat) : Bool :=
  match c.lastRefreshedAt with
  | none => true
  | some t => decide (t + c.ttlMs ≤ now)

/-- Modelled from the spec: one value() call on a SelfRefreshingCache. The
refresh outcome is passed in as an Option: some v for a refresh producing
v, none for a failing refresh. If the entry is fresh the cached value is
returned at once; if stale, a refresh is triggered and awaited; on refresh
failure the failure is logged, the state stays stale and the last-known
good value is returned when one exists, else the distinct notAvailable
failure propagates. -/
def srValue {V : Type} (c : SelfRefreshingCache V) (now : Nat)
    (refreshResult : Option V) : Except SRFailure V × SelfRefreshingCache V :=
  if isStale c now then
    match refreshResult with
    | some v => (Except.ok v, { c with value := some v, lastRefreshedAt := some now })
    | none =>
      match c.value with
      | some lkg => (Except.ok lkg, c)
      | none => (Except.error SRFailure.notAvailable, c)
  else
    match c.value with
    | some v => (Except.ok v, c)
    | none => (Except.error SRFailure.notAvailable, c)

/-- Claim C6: when the refresh function fails on a value() call, a cache
with a prior successful refresh returns the last successfully refreshed
value and its state is unchanged (it remains stale; the failure is only
logged); a cache that has never successfully refreshed propagates the
distinct notAvailable failure. -/
theorem refresh_failure_falls_back {V : Type} (c : SelfRefreshingCache V)
    (now : Nat) (lkg : V) (hprior : c.value = some lkg) :
    srValue c now none = (Except.ok lkg, c) ∧
    (∀ c2 : SelfRefreshingCache V, c2.value = none →
      (srValue c2 now none).1 = Except.error SRFailure.notAvailable) := by
  constructor
  · by_cases hs : isStale c now
    · simp [srValue, hs, hprior]
    · simp [srValue, hs, hprior]
  · intro c2 h2
    by_cases hs : isStale c2 now
    · simp [srValue, hs, h2]
    · simp [srValue, hs, h2]

/-- Witness for C6 at a concrete stale cache holding the value 5 whose
refresh fails at time 100. -/
theorem refresh_failure_falls_back_witness :
    srValue { value := some 5, lastRefreshedAt := some 0, ttlMs := 10 } 100 none =
      (Except.ok 5, { value := some 5, lastRefreshedAt := some 0, ttlMs := 10 }) ∧
    (∀ c2 : SelfRefreshingCache Nat, c2.value = none →
      (srValue c2 100 none).1 = Except.error SRFailure.notAvailable) :=
  refresh_failure_falls_back
    { value := some 5, lastRefreshedAt := some 0, ttlMs := 10 } 100 5 rfl

/-- Modelled from the spec: the observable state of one SelfRefreshingCache
instance under concurrent value() calls: the cached value, whether it is
stale, whether a refresh is in flight, how many times the refresh function
has been invoked, and the callers waiting on the in-flight refresh. -/
structure RefreshingState (V : Type) where
  value : Option V
  stale : Bool
  inFlight : Bool
  refreshCount : Nat
  waiters : List Nat
deriving DecidableEq

/-- Modelled from the spec: a caller invoking value() while the cache is
stale joins the in-flight refresh when one exists, and otherwise triggers
a single new refresh invocation; a caller on a fresh cache is served
immediately and does not wait. -/
def arrive {V : Type} (s : RefreshingState V) (caller : Nat) : RefreshingState V :=
  if s.stale then
    if s.inFlight then { s with waiters := s.waiters ++ [caller] }
    else { s with inFlight := true, refreshCount := s.refreshCount + 1,
                  waiters := s.waiters ++ [caller] }
  else s

/-- Modelled from the spec: completion of the in-flight refresh installs
the new value, marks the cache fresh, and delivers the refreshed value to
every waiting caller. -/
def complete {V : Type} (s : RefreshingState V) (newV : V) :
    RefreshingState V × List (Nat × V) :=
  ({ value := some newV, stale := false, inFlight := false,
     refreshCount := s.refreshCount, waiters := [] },
   s.waiters.map (fun c => (c, newV)))

/-- A batch of value() calls arriving one after another while the refresh
has not yet completed. -/
def arriveAll {V : Type} (s : RefreshingState V) (callers : List Nat) :
    RefreshingState V :=
  callers.foldl arrive s

/-- Once a refresh is in flight on a stale cache, further arrivals only
join the waiter list: they never start a second refresh. -/
theorem arriveAll_joins {V : Type} (cs : List Nat) (s : RefreshingState V)
    (hstale : s.stale = true) (hin : s.inFlight = true) :
    arriveAll s cs = { s with waiters := s.waiters ++ cs } := by
  induction cs generalizing s with
  | nil => simp [arriveAll]
  | cons c rest ih =>
    have hstep : arrive s c = { s with waiters := s.waiters ++ [c] } := by
      simp [arrive, hstale, hin]
    have := ih { s with waiters := s.waiters ++ [c] } hstale hin
    simp only [arriveAll, List.foldl_cons] at *
    rw [hstep, this]
    simp

/-- A stale cache with no refresh in flight, no waiters, and a given count
of past refresh invocations: the state in which a batch of concurrent
value() calls finds the cache. -/
def staleIdle {V : Type} (v0 : Option V) (n : Nat) : RefreshingState V :=
  { value := v0, stale := true, inFlight := true,
    refreshCount := n, waiters := [] }

/-- Claim C7: for any nonempty set of value() calls arriving while the
cache is stale with no refresh yet in flight, exactly one refresh
invocation occurs, and when that single refresh completes every one of the
callers receives the value it produced. -/
theorem concurrent_value_calls_single_refresh {V : Type} (v0 : Option V)
    (n : Nat) (cs : List Nat) (hne : cs ≠ []) (v : V) :
    (arriveAll { staleIdle v0 n with inFlight := false } cs).refreshCount = n + 1 ∧
    (arriveAll { staleIdle v0 n with inFlight := false } cs).inFlight = true ∧
    (complete (arriveAll { staleIdle v0 n with inFlight := false } cs) v).2 =
      cs.map (fun c => (c, v)) ∧
    (∀ c ∈ cs, (c, v) ∈
      (complete (arriveAll { staleIdle v0 n with inFlight := false } cs) v).2) := by
  cases cs with
  | nil => exact absurd rfl hne
  | cons c rest =>
    have hfirst : arrive { staleIdle v0 n with inFlight := false } c =
        { staleIdle v0 n with refreshCount := n + 1, waiters := [c] } := by
      simp [arrive, staleIdle]
    have hrest := arriveAll_joins (V := V) rest
      { staleIdle v0 n with refreshCount := n + 1, waiters := [c] } rfl rfl
    have hall : arriveAll { staleIdle v0 n with inFlight := false } (c :: rest) =
        { staleIdle v0 n with refreshCount := n + 1, waiters := c :: rest } := by
      simp only [arriveAll, List.foldl_cons]
      rw [hfirst]
      simpa [staleIdle] using hrest
    refine ⟨by rw [hall], ?_, by rw [hall]; rfl, ?_⟩
    · rw [hall]; rfl
    · intro x hx
      rw [hall]
      simp only [complete, List.mem_map]
      exact ⟨x, hx, rfl⟩

/-- Witness for C7: three callers arrive on a stale cache; one refresh
runs and all three receive the refreshed value 9. -/
theorem concurrent_value_calls_single_refresh_witness :
    (arriveAll { staleIdle (none : Option Nat) 0 with inFlight := false }
      [1, 2, 3]).refreshCount = 0 + 1 ∧
    (arriveAll { staleIdle (none : Option Nat) 0 with inFlight := false }
      [1, 2, 3]).inFlight = true ∧
    (complete (arriveAll { staleIdle (none : Option Nat) 0 with inFlight := false }
      [1, 2, 3]) 9).2 = [1, 2, 3].map (fun c => (c, 9)) ∧
    (∀ c ∈ [1, 2, 3], (c, 9) ∈
      (complete (arriveAll { staleIdle (none : Option Nat) 0 with inFlight := false }
        [1, 2, 3]) 9).2) :=
  concurrent_value_calls_single_refresh none 0 [1, 2, 3] (by decide) 9

/-- Modelled from the spec: the RequestContextCacheService state, a per
context map from keys of any type to unserialized values, keyed first by
an opaque context identity. -/
def RequestCache (K V : Type) := Nat → K → Option V

/-- The empty request-scoped cache. -/
def rcEmpty (K V : Type) : RequestCache K V := fun _ _ => none

/-- Modelled from the spec: storing a value under one request context
touches only that context. -/
def rcSet {K V : Type} [DecidableEq K] (c : RequestCache K V) (ctx : Nat)
    (k : K) (v : V) : RequestCache K V :=
  fun c2 k2 => if c2 = ctx ∧ k2 = k then some v else c c2 k2

/-- Modelled from the spec: RequestContextCacheService.get looks the key up
in the store owned by the given context; on a miss it runs the compute
function, records the result under that context only, and returns it. The
third component records whether the compute function was invoked. -/
def rcGet {K V : Type} [DecidableEq K] (c : RequestCache K V) (ctx : Nat)
    (k : K) (compute : V) : V × RequestCache K V × Bool :=
  match c ctx k with
  | some v => (v, c, false)
  | none => (compute, rcSet c ctx k compute, true)

/-- An operation against the request-scoped cache, tagged with the context
performing it. -/
inductive RCOp (K V : Type) where
  | setOp (ctx : Nat) (k : K) (v : V)
  | getOp (ctx : Nat) (k : K) (compute : V)

/-- The context an operation runs under. -/
def RCOp.context {K V : Type} : RCOp K V → Nat
  | RCOp.setOp c _ _ => c
  | RCOp.getOp c _ _ => c

/-- State change performed by one operation. -/
def applyOp {K V : Type} [DecidableEq K] (c : RequestCache K V) :
    RCOp K V → RequestCache K V
  | RCOp.setOp ctx k v => rcSet c ctx k v
  | RCOp.getOp ctx k f => (rcGet c ctx k f).2.1

/-- State after a sequence of operations. -/
def applyOps {K V : Type} [DecidableEq K] (c : RequestCache K V)
    (ops : List (RCOp K V)) : RequestCache K V :=
  ops.foldl applyOp c

/-- An operation run under another context leaves this context's view of
the request-scoped cache untouched. -/
theorem applyOp_other_context {K V : Type} [DecidableEq K]
    (c : RequestCache K V) (op : RCOp K V) (ctx : Nat)
    (h : RCOp.context op ≠ ctx) (k : K) :
    applyOp c op ctx k = c ctx k := by
  cases op with
  | setOp ctx0 k0 v =>
    have : ctx ≠ ctx0 := fun he => h (by simp [RCOp.context, he])
    simp [applyOp, rcSet, this]
  | getOp ctx0 k0 f =>
    have hne : ctx ≠ ctx0 := fun he => h (by simp [RCOp.context, he])
    cases hc : c ctx0 k0 with
    | some v => simp [applyOp, rcGet, hc]
    | none => simp [applyOp, rcGet, hc, rcSet, hne]

/-- An operation run under this context acts identically on two caches
whose views under this context agree. -/
theorem applyOp_respects_view {K V : Type} [DecidableEq K]
    (c1 c2 : RequestCache K V) (op : RCOp K V) (ctx : Nat)
    (h : RCOp.context op = ctx) (hagree : ∀ k, c1 ctx k = c2 ctx k) (k : K) :
    applyOp c1 op ctx k = applyOp c2 op ctx k := by
  cases op with
  | setOp ctx0 k0 v =>
    have hc : ctx0 = ctx := h
    subst hc
    by_cases hk : ctx0 = ctx0 ∧ k = k0
    · simp [applyOp, rcSet, hk]
    · simp [applyOp, rcSet, hk, hagree k]
  | getOp ctx0 k0 f =>
    have hc : ctx0 = ctx := h
    subst hc
    have hk0 := hagree k0
    cases hc1 : c1 ctx0 k0 with
    | some v =>
      rw [hc1] at hk0
      simp [applyOp, rcGet, hc1, ← hk0, hagree k]
    | none =>
      rw [hc1] at hk0
      by_cases hk : ctx0 = ctx0 ∧ k = k0
      · simp [applyOp, rcGet, hc1, ← hk0, rcSet, hk]
      · simp [applyOp, rcGet, hc1, ← hk0, rcSet, hk, hagree k]

/-- The view of the request-scoped cache under one context after any
sequence of operations equals the view obtained by running only the
operations of that context: operations of other contexts are invisible. -/
theorem applyOps_project {K V : Type} [DecidableEq K] (ops : List (RCOp K V))
    (c1 c2 : RequestCache K V) (ctx : Nat)
    (hagree : ∀ k, c1 ctx k = c2 ctx k) (k : K) :
    applyOps c1 ops ctx k =
      applyOps c2 (ops.filter (fun o => RCOp.context o == ctx)) ctx k := by
  induction ops generalizing c1 c2 with
  | nil => exact hagree k
  | cons op rest ih =>
    by_cases h : RCOp.context op = ctx
    · have hfilter : (op :: rest).filter (fun o => RCOp.context o == ctx) =
          op :: rest.filter (fun o => RCOp.context o == ctx) := by
        simp [List.filter, h]
      rw [hfilter]
      simp only [applyOps, List.foldl_cons]
      exact ih (applyOp c1 op) (applyOp c2 op)
        (applyOp_respects_view c1 c2 op ctx h hagree)
    · have hfilter : (op :: rest).filter (fun o => RCOp.context o == ctx) =
          rest.filter (fun o => RCOp.context o == ctx) := by
        simp [List.filter_cons, h]
      rw [hfilter]
      simp only [applyOps, List.foldl_cons]
      exact ih (applyOp c1 op) c2
        (fun k2 => (applyOp_other_context c1 op ctx h k2).trans (hagree k2))

/-- Claim C8: with two distinct contexts and the same key, each context's
get computes independently: the first get computes and returns its own
result, the second context still sees no entry afterwards, computes in
turn and receives its own result rather than the first context's; and in
general the view under one context after any operation sequence depends
only on the operations performed under that same context. -/
theorem requestScoped_no_cross_context_leakage {K V : Type} [DecidableEq K]
    (c : RequestCache K V) (ctx1 ctx2 : Nat) (k : K) (f g : V)
    (hne : ctx2 ≠ ctx1)
    (h1 : c ctx1 k = none) (h2 : c ctx2 k = none) :
    (rcGet c ctx1 k f).2.2 = true ∧
    (rcGet c ctx1 k f).1 = f ∧
    (rcGet c ctx1 k f).2.1 ctx2 k = none ∧
    (rcGet (rcGet c ctx1 k f).2.1 ctx2 k g).2.2 = true ∧
    (rcGet (rcGet c ctx1 k f).2.1 ctx2 k g).1 = g ∧
    (∀ ops : List (RCOp K V), ∀ k2 : K,
      applyOps c ops ctx1 k2 =
        applyOps c (ops.filter (fun o => RCOp.context o == ctx1)) ctx1 k2) := by
  have hstep : rcGet c ctx1 k f = (f, rcSet c ctx1 k f, true) := by
    simp [rcGet, h1]
  have hview : rcSet c ctx1 k f ctx2 k = none := by
    simp [rcSet, hne, h2]
  refine ⟨by rw [hstep], by rw [hstep], ?_, ?_, ?_, ?_⟩
  · rw [hstep]; exact hview
  · rw [hstep]; simp [rcGet, hview]
  · rw [hstep]; simp [rcGet, hview]
  · intro ops k2
    exact applyOps_project ops c c ctx1 (fun _ => rfl) k2

/-- Witness for C8 with contexts 1 and 2, key 0 and compute results 10
and 20. -/
theorem requestScoped_no_cross_context_leakage_witness :
    (rcGet (rcEmpty Nat Nat) 1 0 10).2.2 = true ∧
    (rcGet (rcEmpty Nat Nat) 1 0 10).1 = 10 ∧
    (rcGet (rcEmpty Nat Nat) 1 0 10).2.1 2 0 = none ∧
    (rcGet (rcGet (rcEmpty Nat Nat) 1 0 10).2.1 2 0 20).2.2 = true ∧
    (rcGet (rcGet (rcEmpty Nat Nat) 1 0 10).2.1 2 0 20).1 = 20 ∧
    (∀ ops : List (RCOp Nat Nat), ∀ k2 : Nat,
      applyOps (rcEmpty Nat Nat) ops 1 k2 =
        applyOps (rcEmpty Nat Nat)
          (ops.filter (fun o => RCOp.context o == 1)) 1 k2) :=
  requestScoped_no_cross_context_leakage (rcEmpty Nat Nat) 1 2 0 10 20
    (by decide) rfl rfl

/-- Modelled from the spec: with no cache plugin configured, each server or
worker instance holds its own private in-memory store, indexed here by an
instance number; nothing is shared between instances. -/
def InMemorySystem (V : Type) := Nat → Store V

/-- A set performed by instance i writes only to the store of instance i. -/
def inMemorySet {V : Type} (sys : InMemorySystem V) (i : Nat) (k : String)
    (v : V) (ttl : Option Nat) (tags : List String) (now : Nat) :
    InMemorySystem V :=
  fun j => if j = i then CacheService.set (sys i) k v ttl tags now else sys j

/-- A get performed by instance i reads only the store of instance i. -/
def inMemoryGet {V : Type} (sys : InMemorySystem V) (i : Nat) (k : String)
    (now : Nat) : Option V :=
  CacheService.get (sys i) k now

/-- Modelled from the spec: with DefaultCachePlugin or RedisCachePlugin
configured identically on all instances, every instance operates on the
one shared store. -/
def SharedSystem (V : Type) := Store V

/-- A set performed by any instance writes the single shared store. -/
def sharedSet {V : Type} (s : SharedSystem V) (i : Nat) (k : String) (v : V)
    (ttl : Option Nat) (tags : List String) (now : Nat) : SharedSystem V :=
  CacheService.set s k v ttl tags now

/-- A get performed by any instance reads the single shared store. -/
def sharedGet {V : Type} (s : SharedSystem V) (i : Nat) (k : String)
    (now : Nat) : Option V :=
  CacheService.get s k now

/-- Claim C9: without a cache plugin the in-memory cache is per process: a
set performed by instance i is never observable by a get on a different
instance j, whose view is wholly unchanged; with a shared-backend plugin
configured on all instances, a set by instance i is immediately visible
to a get on any other instance j. -/
theorem inMemory_cache_not_shared_across_instances {V : Type}
    (sys : InMemorySystem V) (sh : SharedSystem V) (i j : Nat) (hne : j ≠ i)
    (k : String) (v : V) (ttl : Option Nat) (tags : List String)
    (now now2 : Nat) :
    inMemoryGet (inMemorySet sys i k v ttl tags now) j k now2 =
      inMemoryGet sys j k now2 ∧
    inMemorySet sys i k v ttl tags now j = sys j ∧
    sharedGet (sharedSet sh i k v none tags now) j k now = some v := by
  refine ⟨?_, ?_, ?_⟩
  · simp [inMemoryGet, inMemorySet, hne]
  · simp [inMemorySet, hne]
  · simp [sharedGet, sharedSet, CacheService.get, CacheService.set]

/-- Witness for C9: instance 0 writes, instance 1 still reads absent from
its own in-memory store, while through a shared backend instance 1 reads
the written value. -/
theorem inMemory_cache_not_shared_across_instances_witness :
    inMemoryGet (inMemorySet (fun _ => emptyStore Nat) 0 "k" 7 none [] 0)
      1 "k" 0 = inMemoryGet (fun _ => emptyStore Nat) 1 "k" 0 ∧
    inMemorySet (fun _ => emptyStore Nat) 0 "k" 7 none [] 0 1 =
      (fun _ => emptyStore Nat : InMemorySystem Nat) 1 ∧
    sharedGet (sharedSet (emptyStore Nat) 0 "k" 7 none [] 0) 1 "k" 0 = some 7 :=
  inMemory_cache_not_shared_across_instances (fun _ => emptyStore Nat)
    (emptyStore Nat) 0 1 (by decide) "k" 7 none [] 0 0

/-- Modelled from the spec: the DefaultCachePlugin cacheSize option
defaults to ten thousand entries when omitted. -/
def defaultCacheSize : Nat := 10000

/-- Modelled from the spec: the DefaultCachePlugin backing store, a list of
entries (most recently written first) capped at cacheSize. -/
structure BoundedStore (V : Type) where
  entries : List (String × CacheEntry V)
  cacheSize : Nat
deriving DecidableEq

/-- Modelled from the spec: a set on the bounded store replaces any entry
under the same key, puts the new entry first, and drops the oldest surplus
entries so that at most cacheSize remain. -/
def boundedSet {V : Type} (s : BoundedStore V) (k : String) (v : V)
    (ttl : Option Nat) (tags : List String) (now : Nat) : BoundedStore V :=
  { s with entries :=
      ((k, { value := v, expiresAt := ttl.map (fun t => now + t), tags := tags }) ::
        s.entries.filter (fun p => !(p.1 == k))).take s.cacheSize }

/-- Modelled from the spec: a get on the bounded store, with the same
passive expiry check as the cache service. -/
def boundedGet {V : Type} (s : BoundedStore V) (k : String) (now : Nat) :
    Option V :=
  match s.entries.find? (fun p => p.1 == k) with
  | none => none
  | some (_, e) =>
    match e.expiresAt with
    | none => some e.value
    | some t => if now < t then some e.value else none

/-- Claim C10: the DefaultCachePlugin store never holds more than
cacheSize entries after a set (10,000 when the option is omitted), so a
set may evict an existing entry before its TTL elapses: concretely, with
capacity 1, an entry stored with no expiry reads back, but after a second
set under another key it reads as absent although no delete or tag
invalidation ran. -/
theorem cacheSize_bounds_entries {V : Type} (s : BoundedStore V) (k : String)
    (v : V) (ttl : Option Nat) (tags : List String) (now : Nat) :
    (boundedSet s k v ttl tags now).entries.length ≤ s.cacheSize ∧
    defaultCacheSize = 10000 ∧
    boundedGet (boundedSet { entries := [], cacheSize := 1 } "a" (7 : Nat)
      none [] 0) "a" 0 = some 7 ∧
    boundedGet (boundedSet (boundedSet { entries := [], cacheSize := 1 }
      "a" (7 : Nat) none [] 0) "b" 8 none [] 0) "a" 5 = none := by
  refine ⟨?_, rfl, by decide, by decide⟩
  simpa [boundedSet] using List.length_take_le s.cacheSize _

end VendureCache
